import Mathlib

/-!
# Verification of `remote-input` (src/main.rs)

A shallow embedding of the remote-input event-distribution service:
the frame codec (postcard serialization + COBS framing used by
`postcard::to_slice_cobs`), the broadcast event bus, the device-listener
state machine (`device_listener`), and the per-connection protocol handler
(`handle_connection`).  Bytes are modelled as `Nat` (< 256 where relevant),
machine integers as `Nat`/`Int` with explicit bounds.
-/

namespace RemoteInput

/-! ## Data model

`InputEventWrapper` (main.rs lines 41-47): the serialized form of a device
event.  The `SystemTime` timestamp is serialized by serde as a pair
(seconds since epoch : u64, subsecond nanoseconds : u32), so the model
carries both components as naturals with explicit bounds. -/

structure InputEventWrapper where
  secs : Nat
  nanos : Nat
  event_type : Nat
  code : Nat
  value : Int
  deriving DecidableEq, Repr

/-- Raw-event field bounds: `secs` is a u64, `nanos` a u32, `event_type`
and `code` are u16, `value` an i32 (main.rs lines 41-47). -/
def ValidEvent (e : InputEventWrapper) : Prop :=
  e.secs < 2 ^ 64 ∧ e.nanos < 2 ^ 32 ∧ e.event_type < 2 ^ 16 ∧
    e.code < 2 ^ 16 ∧ -(2 ^ 31) ≤ e.value ∧ e.value < 2 ^ 31

instance (e : InputEventWrapper) : Decidable (ValidEvent e) := by
  unfold ValidEvent; infer_instance

/-- evdev `EventType::KEY` (input-event-codes.h: EV_KEY = 0x01). -/
def EV_KEY : Nat := 1

/-- evdev `EventType::LED` (input-event-codes.h: EV_LED = 0x11). -/
def EV_LED : Nat := 17

/-! ## Postcard varint (LEB128)

postcard serializes u16/u32/u64 as little-endian base-128 varints: emit
`n % 128` with the continuation bit `0x80` while `n ≥ 128`.  The loop is
written with fuel so that it is structurally recursive; fuel 10 covers
every u64 (`128 ^ 10 = 2 ^ 70 > 2 ^ 64`), and all theorems carry the
u64 bound. -/

def varintEncodeGo : Nat → Nat → List Nat
  | 0, n => [n % 128]
  | fuel + 1, n => if n < 128 then [n] else (n % 128 + 128) :: varintEncodeGo fuel (n / 128)

def varintEncode (n : Nat) : List Nat := varintEncodeGo 10 n

/-- Varint decoder: inverse of the LEB128 loop.  Returns the decoded value
and the unconsumed remainder of the input. -/
def varintDecode : List Nat → Option (Nat × List Nat)
  | [] => none
  | b :: rest =>
    if b < 128 then some (b, rest)
    else
      match varintDecode rest with
      | none => none
      | some (n, r) => some ((b - 128) + 128 * n, r)

/-! ## Zigzag (postcard's signed-integer encoding)

postcard serializes `i32` as the zigzag-mapped unsigned varint:
`(v << 1) ^ (v >> 31)`, i.e. `2v` for `v ≥ 0` and `-2v - 1` for `v < 0`. -/

def zigzag (v : Int) : Nat := (if 0 ≤ v then 2 * v else -2 * v - 1).toNat

def unzigzag (n : Nat) : Int :=
  if n % 2 = 0 then ((n / 2 : Nat) : Int) else -((n / 2 : Nat) : Int) - 1

/-! ## COBS (consistent overhead byte stuffing)

The byte-stuffing layer of `postcard::to_slice_cobs`.  `cobsEncodeGo block
data` is the cobs-crate state machine: `block` is the pending run of
non-zero bytes (length < 254); a zero byte or a full 254-byte run
finalizes the block by emitting `block.length + 1` (resp. `0xFF`) followed
by the block; the final block is always emitted at the end of input. -/

def cobsEncodeGo : List Nat → List Nat → List Nat
  | block, [] => (block.length + 1) :: block
  | block, b :: rest =>
    if b = 0 then ((block.length + 1) :: block) ++ cobsEncodeGo [] rest
    else if block.length = 253 then (255 :: (block ++ [b])) ++ cobsEncodeGo [] rest
    else cobsEncodeGo (block ++ [b]) rest

def cobsEncode (data : List Nat) : List Nat := cobsEncodeGo [] data

/-- Modelled from the spec: the repository contains no decoder (clients are
external), so COBS decoding is the standard inverse of the stuffing layer:
read a code byte `c`, copy the next `c - 1` (non-zero) bytes, and insert a
zero between blocks unless the code byte was `0xFF`.  The `fuel` argument
makes the recursion structural; any `fuel ≥` the number of blocks (hence
any `fuel ≥` input length) suffices. -/
def cobsDecodeGo : Nat → List Nat → Option (List Nat)
  | _, [] => some []
  | 0, _ :: _ => none
  | fuel + 1, c :: rest =>
    if c = 0 then none
    else if rest.length < c - 1 then none
    else if (rest.take (c - 1)).any (· == 0) then none
    else if (rest.drop (c - 1)).isEmpty then some (rest.take (c - 1))
    else if c < 255 then
      (cobsDecodeGo fuel (rest.drop (c - 1))).map (fun d => rest.take (c - 1) ++ 0 :: d)
    else
      (cobsDecodeGo fuel (rest.drop (c - 1))).map (fun d => rest.take (c - 1) ++ d)

def cobsDecode (l : List Nat) : Option (List Nat) := cobsDecodeGo (l.length + 1) l

/-! ## Postcard encoding of `InputEventWrapper`

A postcard struct is the concatenation of its fields' encodings, in
declaration order (main.rs lines 41-47: timestamp, event_type, code,
value; the serde encoding of `SystemTime` is the struct
(secs_since_epoch : u64, nanos_since_epoch : u32)). -/

def postcardEncode (e : InputEventWrapper) : List Nat :=
  varintEncode e.secs ++ varintEncode e.nanos ++ varintEncode e.event_type ++
    varintEncode e.code ++ varintEncode (zigzag e.value)

/-- `postcard::to_slice_cobs` (main.rs lines 211-214): COBS-encode the
postcard payload, append the `0x00` sentinel, and fail (`Err`) when the
result does not fit the fixed 64-byte `event_buffer`. -/
def toSliceCobs (e : InputEventWrapper) : Option (List Nat) :=
  let out := cobsEncode (postcardEncode e) ++ [0]
  if out.length ≤ 64 then some out else none

/-- Modelled from the spec: decoding a frame ("decode" of §8's round-trip
property) is the inverse pipeline — strip the trailing `0x00` sentinel,
COBS-decode, then read the five postcard fields, requiring the payload to
be consumed exactly. -/
def parseEvent (bytes : List Nat) : Option InputEventWrapper :=
  match varintDecode bytes with
  | none => none
  | some (secs, r1) =>
    match varintDecode r1 with
    | none => none
    | some (nanos, r2) =>
      match varintDecode r2 with
      | none => none
      | some (ty, r3) =>
        match varintDecode r3 with
        | none => none
        | some (code, r4) =>
          match varintDecode r4 with
          | none => none
          | some (zz, r5) =>
            if r5 = [] then some ⟨secs, nanos, ty, code, unzigzag zz⟩ else none

/-- Modelled from the spec: frame decoding — the frame must end with the
`0x00` sentinel; the rest is COBS-decoded and parsed as a postcard record. -/
def decodeFrame (f : List Nat) : Option InputEventWrapper :=
  if f.getLast? = some 0 then
    match cobsDecode f.dropLast with
    | none => none
    | some payload => parseEvent payload
  else none

/-! ## Event bus

The bus payload type is `([u8; 64], usize)` (main.rs line 102): the fixed
64-byte `event_buffer` (serialized frame followed by stale garbage) paired
with the index one past the last meaningful byte. -/

abbrev Frame : Type := List Nat × Nat

/-- The byte range a connection handler sends for a frame:
`&event.0[0..event.1]` (main.rs line 296). -/
def writtenBytes (f : Frame) : List Nat := f.1.take f.2

/-- Modelled from the spec: the `bus` crate's broadcast state (§4.2) — the
repository only calls it.  Each active subscriber has an independent
FIFO queue bounded by the shared capacity (100 in `main`). -/
structure BusState where
  queues : List (List Frame)
  capacity : Nat

/-- `Bus::rx_count` (main.rs line 210): the number of active subscribers. -/
def BusState.rxCount (b : BusState) : Nat := b.queues.length

inductive BusError where
  | full
  | closed
  deriving DecidableEq

/-- Modelled from the spec: `try_broadcast` (§4.2) — non-blocking,
all-or-nothing: if any subscriber's queue is at capacity the publish fails
with `Full` and no queue is changed; otherwise the frame is appended to
every queue. -/
def tryBroadcast (b : BusState) (f : Frame) : Except BusError BusState :=
  if b.queues.any (fun q => b.capacity ≤ q.length) then .error .full
  else .ok { b with queues := b.queues.map (fun q => q ++ [f]) }

/-- Modelled from the spec: publishing a sequence of frames in order. -/
def publishAll (b : BusState) : List Frame → Except BusError BusState
  | [] => .ok b
  | f :: fs =>
    match tryBroadcast b f with
    | .error e => .error e
    | .ok b' => publishAll b' fs

/-- Modelled from the spec: `recv` on a subscription (§4.2) pops the front
of that subscriber's FIFO queue. -/
def recvStep : List Frame → Option (Frame × List Frame)
  | [] => none
  | f :: q => some (f, q)

/-- Modelled from the spec: receiving repeatedly (front of the FIFO queue
first) until the queue is exhausted. -/
def drainQueue : List Frame → List Frame
  | [] => []
  | f :: q => f :: drainQueue q

/-! ## Device listener (main.rs lines 98-237) -/

/-- The listener's control state (main.rs lines 110-113). -/
structure ListenerState where
  grabbed : Bool
  grab_target : Bool
  pause : Bool
  pause_target : Bool
  deriving DecidableEq, Repr

/-- Outcome of the OS-level `grab`/`ungrab` call attempted in an iteration. -/
inductive OsResult where
  | ok
  | fail
  deriving DecidableEq

/-- Step 1 of a listener iteration (main.rs lines 122-160): when
`grabbed != grab_target`, attempt the OS grab or ungrab.  On success
`grabbed` becomes the target (LED indicator failures are logged and
ignored); on failure the target is written back to the literal current
state (`grab_target = false` after a failed grab, `true` after a failed
ungrab), preventing a retry on the next iteration. -/
def syncGrab (os : OsResult) (s : ListenerState) : ListenerState :=
  if s.grabbed = s.grab_target then s
  else if s.grab_target then
    match os with
    | .ok => { s with grabbed := true }
    | .fail => { s with grab_target := false }
  else
    match os with
    | .ok => { s with grabbed := false }
    | .fail => { s with grab_target := true }

/-- Step 2 of a listener iteration (main.rs lines 162-178): when
`pause != pause_target`, flip `pause` (`pause ^= true`); the LED indicator
is best-effort and does not affect state. -/
def syncPause (s : ListenerState) : ListenerState :=
  if s.pause = s.pause_target then s else { s with pause := !s.pause }

/-- The listener state at the moment `fetch_events` is called (start of
step 3): step 1 then step 2 have run (main.rs lines 118-181). -/
def preFetchState (os : OsResult) (s : ListenerState) : ListenerState :=
  syncPause (syncGrab os s)

/-- Result of processing one fetched event (main.rs lines 186-230):
the updated control state, the 64-byte `event_buffer` (overwritten from
index 0 by a successful serialization, stale beyond the new length), the
bus, the frame handed to `try_broadcast` (if serialization was reached and
succeeded), whether the broadcast succeeded, and whether the
"Bus is full." line was logged. -/
structure StepOut where
  state : ListenerState
  buffer : List Nat
  bus : BusState
  frame : Option Frame
  sent : Bool
  busFullLogged : Bool

/-- One iteration of the event loop body (main.rs lines 186-230):
LED events are skipped; escape-key events toggle `grab_target` on release
(`grab_target ^= value == 0`) and are absorbed; pause-key events toggle
`pause_target` on release and are absorbed; otherwise, when not paused and
at least one subscriber exists, the event is serialized into
`event_buffer` and `(event_buffer, len)` is broadcast, a full bus being
logged and the frame dropped. -/
def processEvent (escape_code pause_code : Nat) (s : ListenerState) (buf : List Nat)
    (bus : BusState) (e : InputEventWrapper) : StepOut :=
  if e.event_type = EV_LED then ⟨s, buf, bus, none, false, false⟩
  else if e.event_type = EV_KEY ∧ e.code = escape_code then
    ⟨{ s with grab_target := xor s.grab_target (e.value == 0) }, buf, bus, none, false, false⟩
  else if e.event_type = EV_KEY ∧ e.code = pause_code then
    ⟨{ s with pause_target := if e.value == 0 then !s.pause_target else s.pause_target },
      buf, bus, none, false, false⟩
  else if s.pause = false ∧ 1 ≤ bus.rxCount then
    match toSliceCobs e with
    | none => ⟨s, buf, bus, none, false, false⟩
    | some enc =>
      let buf' := enc ++ buf.drop enc.length
      match tryBroadcast bus (buf', enc.length) with
      | .error _ => ⟨s, buf', bus, some (buf', enc.length), false, true⟩
      | .ok bus' => ⟨s, buf', bus', some (buf', enc.length), true, false⟩
  else ⟨s, buf, bus, none, false, false⟩

/-- The flat guard condition under which an event is encoded and
published (the complement of the skip/absorb/discard branches). -/
def ForwardCond (escape_code pause_code : Nat) (s : ListenerState) (bus : BusState)
    (e : InputEventWrapper) : Prop :=
  e.event_type ≠ EV_LED ∧
    ¬(e.event_type = EV_KEY ∧ (e.code = escape_code ∨ e.code = pause_code)) ∧
    s.pause = false ∧ 1 ≤ bus.rxCount

instance (ec pc : Nat) (s : ListenerState) (bus : BusState) (e : InputEventWrapper) :
    Decidable (ForwardCond ec pc s bus e) := by
  unfold ForwardCond; infer_instance

/-! ## Connection handler (main.rs lines 266-307) -/

/-- Outcome of `read_until(0x00, &mut client_key)` during authentication. -/
inductive ReadResult where
  | err
  | ok (client_key : List Nat)

/-- The authentication check (main.rs line 284):
`client_key.starts_with(api_key.as_bytes())` — accept when every byte of
the API key matches the corresponding leading byte of the candidate. -/
def checkApiKey : List Nat → List Nat → Bool
  | [], _ => true
  | _ :: _, [] => false
  | k :: ks, c :: cs => k == c && checkApiKey ks cs

/-- Outcome of one `stream.write(..)` call. -/
inductive WriteResult where
  | err
  | ok (n : Nat)

/-- One observed step of the streaming loop: either `recv` fails (bus
closed) or it yields a frame together with the socket's response to the
subsequent write. -/
inductive StreamStep where
  | recvErr
  | recvOk (f : Frame) (w : WriteResult)

/-- The streaming loop (main.rs lines 293-306) run against a script of
recv/write outcomes; returns the list of byte chunks that reach the wire.
`recv` failure and `write` failure both `return`; a successful
`write` returning `Ok(n)` is not checked against the frame length, so the
wire receives only the first `n` bytes of `&event.0[0..event.1]` and the
loop proceeds to the next frame. -/
def streamLoop : List StreamStep → List (List Nat)
  | [] => []
  | .recvErr :: _ => []
  | .recvOk _ .err :: _ => []
  | .recvOk f (.ok n) :: rest => (writtenBytes f).take n :: streamLoop rest

/-- `handle_connection` after the peer-address preamble (main.rs lines
278-306), with the streaming phase driven by a script.  Faithful to the
source: the `Err` arm of `read_until` only logs — control then reaches the
streaming loop; the `Ok` arm returns early exactly when the prefix check
fails. -/
def handleConnection (api_key : List Nat) (r : ReadResult) (script : List StreamStep) :
    List (List Nat) :=
  match r with
  | .err => streamLoop script
  | .ok client_key =>
    if checkApiKey api_key client_key then streamLoop script else []

/-! ## Codec lemmas -/

theorem varintDecode_encodeGo (fuel : Nat) :
    ∀ n t, n < 128 ^ fuel → varintDecode (varintEncodeGo fuel n ++ t) = some (n, t) := by
  induction fuel with
  | zero =>
    intro n t hn
    interval_cases n
    simp [varintEncodeGo, varintDecode]
  | succ fuel ih =>
    intro n t hn
    by_cases h : n < 128
    · simp [varintEncodeGo, varintDecode, h]
    · rw [varintEncodeGo]
      simp only [if_neg h, List.cons_append, varintDecode]
      have hb : ¬(n % 128 + 128 < 128) := by omega
      rw [if_neg hb, ih (n / 128) t (by
        have : 128 ^ (fuel + 1) = 128 ^ fuel * 128 := by ring
        omega)]
      have : n % 128 + 128 - 128 + 128 * (n / 128) = n := by
        have := Nat.mod_add_div n 128
        omega
      have hmod := Nat.mod_add_div n 128
      simp only [Option.some.injEq, Prod.mk.injEq]
      exact ⟨by omega, trivial⟩

theorem varintEncodeGo_length (fuel : Nat) :
    ∀ n k, n < 128 ^ (k + 1) → (varintEncodeGo fuel n).length ≤ k + 1 := by
  induction fuel with
  | zero => intro n k _; simp [varintEncodeGo]
  | succ fuel ih =>
    intro n k hn
    by_cases h : n < 128
    · simp [varintEncodeGo, h]
    · rw [varintEncodeGo]
      simp only [if_neg h, List.length_cons]
      have hk : 1 ≤ k := by
        by_contra hk
        have : k = 0 := by omega
        subst this
        simp at hn
        omega
      have hdiv : n / 128 < 128 ^ (k - 1 + 1) := by
        have h1 : 128 ^ (k + 1) = 128 ^ k * 128 := by ring
        have h2 : k - 1 + 1 = k := by omega
        rw [h2]
        omega
      have := ih (n / 128) (k - 1) hdiv
      omega

theorem zigzag_lt (v : Int) (h1 : -(2 ^ 31) ≤ v) (h2 : v < 2 ^ 31) :
    zigzag v < 2 ^ 32 := by
  unfold zigzag
  split <;> omega

theorem unzigzag_zigzag (v : Int) : unzigzag (zigzag v) = v := by
  unfold zigzag unzigzag
  by_cases h : 0 ≤ v
  · rw [if_pos h]
    have h2 : (2 * v).toNat = 2 * v.toNat := by omega
    have h3 : 2 * v.toNat % 2 = 0 := by omega
    rw [h2, if_pos h3]
    omega
  · rw [if_neg h]
    have h2 : (-2 * v - 1).toNat = 2 * (-v).toNat - 1 := by omega
    have h4 : 1 ≤ (-v).toNat := by omega
    have h3 : ¬((2 * (-v).toNat - 1) % 2 = 0) := by omega
    rw [h2, if_neg h3]
    omega

theorem cobsEncodeGo_ne_nil (data : List Nat) :
    ∀ block, cobsEncodeGo block data ≠ [] := by
  induction data with
  | nil => intro block; simp [cobsEncodeGo]
  | cons b rest ih =>
    intro block
    rw [cobsEncodeGo]
    by_cases hb : b = 0
    · simp [hb]
    · rw [if_neg hb]
      by_cases hl : block.length = 253
      · simp [hl]
      · rw [if_neg hl]
        exact ih (block ++ [b])

theorem cobsEncodeGo_length (data : List Nat) :
    ∀ block, (cobsEncodeGo block data).length ≤ block.length + 2 * data.length + 1 := by
  induction data with
  | nil => intro block; simp [cobsEncodeGo]
  | cons b rest ih =>
    intro block
    rw [cobsEncodeGo]
    by_cases hb : b = 0
    · rw [if_pos hb]
      have := ih []
      simp only [List.length_append, List.length_cons, List.length_nil] at *
      omega
    · rw [if_neg hb]
      by_cases hl : block.length = 253
      · rw [if_pos hl]
        have := ih []
        simp only [List.length_append, List.length_cons, List.length_nil] at *
        omega
      · rw [if_neg hl]
        have := ih (block ++ [b])
        simp only [List.length_append, List.length_cons, List.length_nil] at *
        omega

theorem cobsDecodeGo_encodeGo (data : List Nat) :
    ∀ block fuel, block.length ≤ 253 → (∀ x ∈ block, x ≠ 0) →
      (cobsEncodeGo block data).length ≤ fuel →
      cobsDecodeGo fuel (cobsEncodeGo block data) = some (block ++ data) := by
  induction data with
  | nil =>
    intro block fuel hlen hnz hfuel
    rw [cobsEncodeGo] at *
    simp only [List.length_cons] at hfuel
    obtain ⟨fuel', rfl⟩ : ∃ f, fuel = f + 1 := ⟨fuel - 1, by omega⟩
    simp only [cobsDecodeGo, List.append_eq]
    have h0 : ¬(block.length + 1 = 0) := by omega
    rw [if_neg h0]
    have h1 : ¬(block.length < block.length + 1 - 1) := by omega
    rw [if_neg h1]
    have h2 : (block.take (block.length + 1 - 1)).any (· == 0) = false := by
      simp only [Nat.add_sub_cancel, List.take_length]
      simp only [List.any_eq_false, beq_iff_eq]
      exact hnz
    rw [h2]
    simp
  | cons b rest ih =>
    intro block fuel hlen hnz hfuel
    rw [cobsEncodeGo] at *
    by_cases hb : b = 0
    · rw [if_pos hb] at *
      simp only [List.cons_append, List.length_cons, List.length_append] at hfuel
      obtain ⟨fuel', rfl⟩ : ∃ f, fuel = f + 1 := ⟨fuel - 1, by omega⟩
      simp only [cobsDecodeGo, List.append_eq]
      have h0 : ¬(block.length + 1 = 0) := by omega
      rw [if_neg h0]
      have h1 : ¬((block ++ cobsEncodeGo [] rest).length < block.length + 1 - 1) := by
        simp only [List.length_append]; omega
      rw [if_neg h1]
      have htake : (block ++ cobsEncodeGo [] rest).take (block.length + 1 - 1) = block := by
        simp
      have hdrop : (block ++ cobsEncodeGo [] rest).drop (block.length + 1 - 1) =
          cobsEncodeGo [] rest := by
        simp
      have h2 : ((block ++ cobsEncodeGo [] rest).take (block.length + 1 - 1)).any (· == 0)
          = false := by
        rw [htake]
        simp only [List.any_eq_false, beq_iff_eq]
        exact hnz
      rw [h2]
      simp only [hdrop]
      have hne : (cobsEncodeGo [] rest).isEmpty = false := by
        cases h : cobsEncodeGo [] rest with
        | nil => exact absurd h (cobsEncodeGo_ne_nil rest [])
        | cons x xs => rfl
      have hne' : ¬((cobsEncodeGo [] rest).isEmpty = true) := by
        simp [cobsEncodeGo_ne_nil rest []]
      rw [if_neg hne']
      have h255 : block.length + 1 < 255 := by omega
      rw [if_pos h255]
      rw [ih [] fuel' (by simp) (by simp) (by omega)]
      simp [htake, hb]
    · rw [if_neg hb] at *
      by_cases hl : block.length = 253
      · rw [if_pos hl] at *
        simp only [List.cons_append, List.length_cons, List.length_append] at hfuel
        obtain ⟨fuel', rfl⟩ : ∃ f, fuel = f + 1 := ⟨fuel - 1, by omega⟩
        simp only [cobsDecodeGo, List.append_eq]
        rw [if_neg (by omega : ¬(255 = 0))]
        have hlen254 : (block ++ [b]).length = 254 := by simp [hl]
        have h1 : ¬(((block ++ [b]) ++ cobsEncodeGo [] rest).length < 255 - 1) := by
          simp only [List.length_append, hlen254]; omega
        rw [if_neg h1]
        have htake : ((block ++ [b]) ++ cobsEncodeGo [] rest).take (255 - 1) = block ++ [b] := by
          have := List.take_left (block ++ [b]) (cobsEncodeGo [] rest)
          rwa [hlen254] at this
        have hdrop : ((block ++ [b]) ++ cobsEncodeGo [] rest).drop (255 - 1) =
            cobsEncodeGo [] rest := by
          have := List.drop_left (block ++ [b]) (cobsEncodeGo [] rest)
          rwa [hlen254] at this
        have h2 : (((block ++ [b]) ++ cobsEncodeGo [] rest).take (255 - 1)).any (· == 0)
            = false := by
          rw [htake]
          simp only [List.any_eq_false, beq_iff_eq, List.mem_append, List.mem_singleton]
          rintro x (hx | rfl)
          · exact hnz x hx
          · exact hb
        rw [h2]
        simp only [hdrop]
        have hne : (cobsEncodeGo [] rest).isEmpty = false := by
          cases h : cobsEncodeGo [] rest with
          | nil => exact absurd h (cobsEncodeGo_ne_nil rest [])
          | cons x xs => rfl
        have hne' : ¬((cobsEncodeGo [] rest).isEmpty = true) := by
          simp [cobsEncodeGo_ne_nil rest []]
        rw [if_neg hne']
        rw [if_neg (by omega : ¬(255 < 255))]
        rw [ih [] fuel' (by simp) (by simp) (by omega)]
        have h254 : List.take 254 (block ++ b :: cobsEncodeGo [] rest) = block ++ [b] := by
          rw [show block ++ b :: cobsEncodeGo [] rest =
              (block ++ [b]) ++ cobsEncodeGo [] rest by simp,
            show (254 : Nat) = (block ++ [b]).length from hlen254.symm, List.take_left]
        simp only [List.append_assoc] at h254 ⊢
        simp [h254]
      · rw [if_neg hl] at *
        rw [ih (block ++ [b]) fuel (by simp; omega)
          (by
            intro x hx
            simp only [List.mem_append, List.mem_singleton] at hx
            rcases hx with hx | rfl
            · exact hnz x hx
            · exact hb)
          hfuel]
        simp

theorem cobsDecode_cobsEncode (data : List Nat) :
    cobsDecode (cobsEncode data) = some data := by
  unfold cobsDecode cobsEncode
  rw [cobsDecodeGo_encodeGo data [] _ (by simp) (by simp) (by omega)]
  simp

theorem varintDecode_varintEncode (n : Nat) (t : List Nat) (h : n < 2 ^ 64) :
    varintDecode (varintEncode n ++ t) = some (n, t) :=
  varintDecode_encodeGo 10 n t (lt_of_lt_of_le h (by norm_num))

theorem parseEvent_postcardEncode (e : InputEventWrapper) (h : ValidEvent e) :
    parseEvent (postcardEncode e) = some e := by
  obtain ⟨h1, h2, h3, h4, h5, h6⟩ := h
  have hz : zigzag e.value < 2 ^ 64 :=
    lt_of_lt_of_le (zigzag_lt e.value h5 h6) (by norm_num)
  unfold postcardEncode parseEvent
  rw [show varintEncode (zigzag e.value) =
      varintEncode (zigzag e.value) ++ [] from (List.append_nil _).symm]
  simp only [List.append_assoc]
  simp only [varintDecode_varintEncode _ _ h1,
    varintDecode_varintEncode _ _ (lt_of_lt_of_le h2 (by norm_num)),
    varintDecode_varintEncode _ _ (lt_of_lt_of_le h3 (by norm_num)),
    varintDecode_varintEncode _ _ (lt_of_lt_of_le h4 (by norm_num)),
    varintDecode_varintEncode _ _ hz]
  rw [unzigzag_zigzag]
  rfl

theorem postcardEncode_length (e : InputEventWrapper) (h : ValidEvent e) :
    (postcardEncode e).length ≤ 26 := by
  obtain ⟨h1, h2, h3, h4, h5, h6⟩ := h
  have l1 : (varintEncode e.secs).length ≤ 10 :=
    varintEncodeGo_length 10 e.secs 9 (lt_of_lt_of_le h1 (by norm_num))
  have l2 : (varintEncode e.nanos).length ≤ 5 :=
    varintEncodeGo_length 10 e.nanos 4 (lt_of_lt_of_le h2 (by norm_num))
  have l3 : (varintEncode e.event_type).length ≤ 3 :=
    varintEncodeGo_length 10 e.event_type 2 (lt_of_lt_of_le h3 (by norm_num))
  have l4 : (varintEncode e.code).length ≤ 3 :=
    varintEncodeGo_length 10 e.code 2 (lt_of_lt_of_le h4 (by norm_num))
  have l5 : (varintEncode (zigzag e.value)).length ≤ 5 :=
    varintEncodeGo_length 10 (zigzag e.value) 4
      (lt_of_lt_of_le (zigzag_lt e.value h5 h6) (by norm_num))
  simp only [postcardEncode, List.length_append]
  omega

/-- For every valid event, serialization into the 64-byte buffer succeeds
and the produced frame is the COBS body followed by the `0x00` sentinel. -/
theorem toSliceCobs_eq (e : InputEventWrapper) (h : ValidEvent e) :
    toSliceCobs e = some (cobsEncode (postcardEncode e) ++ [0]) := by
  have hp := postcardEncode_length e h
  have hc := cobsEncodeGo_length (postcardEncode e) []
  unfold toSliceCobs cobsEncode
  simp only [List.length_nil] at hc
  rw [if_pos (by simp only [List.length_append, List.length_cons, List.length_nil]; omega)]

/-- C9: for every valid RawEvent value (u64/u32 timestamp pair, u16
event_type, u16 code, i32 value), decoding the frame produced by the
postcard+COBS serialization into the 64-byte buffer yields the event back:
`decode (encode e) = e`. -/
theorem frame_roundtrip (e : InputEventWrapper) (h : ValidEvent e) :
    (toSliceCobs e).bind decodeFrame = some e := by
  rw [toSliceCobs_eq e h]
  show decodeFrame (cobsEncode (postcardEncode e) ++ [0]) = some e
  unfold decodeFrame
  rw [if_pos (List.getLast?_concat _), List.dropLast_concat]
  simp only [cobsDecode_cobsEncode]
  exact parseEvent_postcardEncode e h

/-! ## Bus lemmas -/

theorem tryBroadcast_full (b : BusState) (f : Frame)
    (h : ∃ q ∈ b.queues, b.capacity ≤ q.length) :
    tryBroadcast b f = .error .full := by
  unfold tryBroadcast
  rw [if_pos]
  obtain ⟨q, hq, hlen⟩ := h
  exact List.any_eq_true.mpr ⟨q, hq, by simpa using hlen⟩

theorem tryBroadcast_ok (b : BusState) (f : Frame) (b' : BusState)
    (h : tryBroadcast b f = .ok b') :
    b'.queues = b.queues.map (fun q => q ++ [f]) ∧ b'.capacity = b.capacity := by
  unfold tryBroadcast at h
  by_cases hc : b.queues.any (fun q => decide (b.capacity ≤ q.length))
  · rw [if_pos hc] at h
    cases h
  · rw [if_neg hc] at h
    cases h
    exact ⟨rfl, rfl⟩

theorem publishAll_ok (fs : List Frame) :
    ∀ b b', publishAll b fs = .ok b' →
      b'.queues = b.queues.map (fun q => q ++ fs) ∧ b'.capacity = b.capacity := by
  induction fs with
  | nil =>
    intro b b' h
    unfold publishAll at h
    cases h
    simp
  | cons f fs ih =>
    intro b b' h
    unfold publishAll at h
    cases htb : tryBroadcast b f with
    | error e => rw [htb] at h; cases h
    | ok b1 =>
      rw [htb] at h
      obtain ⟨hq1, hc1⟩ := tryBroadcast_ok b f b1 htb
      obtain ⟨hq2, hc2⟩ := ih b1 b' h
      refine ⟨?_, hc2.trans hc1⟩
      rw [hq2, hq1, List.map_map]
      simp [Function.comp]

theorem drainQueue_eq (q : List Frame) : drainQueue q = q := by
  induction q with
  | nil => rfl
  | cons f q ih => unfold drainQueue; rw [ih]

/-! ## Listener step lemmas -/

theorem processEvent_forward (esc pc : Nat) (s : ListenerState) (buf : List Nat)
    (bus : BusState) (e : InputEventWrapper) (hfc : ForwardCond esc pc s bus e) :
    processEvent esc pc s buf bus e =
      match toSliceCobs e with
      | none => ⟨s, buf, bus, none, false, false⟩
      | some enc =>
        let buf' := enc ++ buf.drop enc.length
        match tryBroadcast bus (buf', enc.length) with
        | .error _ => ⟨s, buf', bus, some (buf', enc.length), false, true⟩
        | .ok bus' => ⟨s, buf', bus', some (buf', enc.length), true, false⟩ := by
  obtain ⟨hled, hctl, hp, hrx⟩ := hfc
  unfold processEvent
  rw [if_neg hled, if_neg (fun hk => hctl ⟨hk.1, Or.inl hk.2⟩),
    if_neg (fun hk => hctl ⟨hk.1, Or.inr hk.2⟩), if_pos ⟨hp, hrx⟩]

theorem processEvent_not_forward (esc pc : Nat) (s : ListenerState) (buf : List Nat)
    (bus : BusState) (e : InputEventWrapper) (hnfc : ¬ ForwardCond esc pc s bus e) :
    (processEvent esc pc s buf bus e).frame = none ∧
      (processEvent esc pc s buf bus e).bus = bus ∧
      (processEvent esc pc s buf bus e).sent = false := by
  unfold processEvent
  by_cases h1 : e.event_type = EV_LED
  · rw [if_pos h1]; exact ⟨rfl, rfl, rfl⟩
  · rw [if_neg h1]
    by_cases h2 : e.event_type = EV_KEY ∧ e.code = esc
    · rw [if_pos h2]; exact ⟨rfl, rfl, rfl⟩
    · rw [if_neg h2]
      by_cases h3 : e.event_type = EV_KEY ∧ e.code = pc
      · rw [if_pos h3]; exact ⟨rfl, rfl, rfl⟩
      · rw [if_neg h3]
        by_cases h4 : s.pause = false ∧ 1 ≤ bus.rxCount
        · exact absurd
            ⟨h1, fun hk => hk.2.elim (fun hc => h2 ⟨hk.1, hc⟩) (fun hc => h3 ⟨hk.1, hc⟩),
              h4.1, h4.2⟩ hnfc
        · rw [if_neg h4]; exact ⟨rfl, rfl, rfl⟩

theorem processEvent_frame_eq (esc pc : Nat) (s : ListenerState) (buf : List Nat)
    (bus : BusState) (e : InputEventWrapper) (hfc : ForwardCond esc pc s bus e)
    (hv : ValidEvent e) :
    (processEvent esc pc s buf bus e).frame =
      some (cobsEncode (postcardEncode e) ++ [0] ++
          buf.drop (cobsEncode (postcardEncode e) ++ [0]).length,
        (cobsEncode (postcardEncode e) ++ [0]).length) := by
  rw [processEvent_forward esc pc s buf bus e hfc]
  simp only [toSliceCobs_eq e hv]
  split <;> rfl

/-! ## Authentication lemmas -/

theorem checkApiKey_eq_true_iff : ∀ key cand : List Nat,
    checkApiKey key cand = true ↔ ∃ t, cand = key ++ t := by
  intro key
  induction key with
  | nil => intro cand; simp [checkApiKey]
  | cons k ks ih =>
    intro cand
    cases cand with
    | nil => simp [checkApiKey]
    | cons c cs =>
      simp only [checkApiKey, Bool.and_eq_true, beq_iff_eq, ih cs]
      constructor
      · rintro ⟨rfl, t, rfl⟩
        exact ⟨t, rfl⟩
      · rintro ⟨t, ht⟩
        rw [List.cons_append] at ht
        injection ht with h1 h2
        exact ⟨h1.symm, t, h2⟩

/-! ## Claim theorems -/

/-- C1 (refuted — code bug in `handle_connection`): the claim says a read
error during authentication terminates the connection with no frames
streamed.  In the source the `Err` arm of `read_until` (main.rs line 281)
only logs — there is no `return` — so control falls through to the
subscription-streaming loop: here, after a read error and one successful
recv/write, the unauthenticated client receives a frame on the wire. -/
theorem read_error_reaches_streaming :
    handleConnection [1, 2, 3] ReadResult.err
      [StreamStep.recvOk ([5, 0], 2) (WriteResult.ok 2)] = [[5, 0]] := rfl

/-- C2: the connection authenticates iff the configured API key's bytes
are a prefix of the credential candidate (main.rs line 284): a candidate
equal to the key authenticates, any byte-extension of the key
authenticates, and a candidate that is a strict prefix of the key or that
does not extend the key does not authenticate. -/
theorem auth_key_prefix_boundary (key cand : List Nat) :
    (checkApiKey key cand = true ↔ ∃ t, cand = key ++ t) ∧
    checkApiKey key key = true ∧
    (∀ ext, checkApiKey key (key ++ ext) = true) ∧
    ((∃ t, t ≠ [] ∧ key = cand ++ t) → checkApiKey key cand = false) ∧
    (¬ (∃ t, cand = key ++ t) → checkApiKey key cand = false) := by
  refine ⟨checkApiKey_eq_true_iff key cand, ?_, ?_, ?_, ?_⟩
  · exact (checkApiKey_eq_true_iff key key).mpr ⟨[], by simp⟩
  · exact fun ext => (checkApiKey_eq_true_iff key (key ++ ext)).mpr ⟨ext, rfl⟩
  · rintro ⟨t, htne, hkey⟩
    cases hck : checkApiKey key cand with
    | false => rfl
    | true =>
      obtain ⟨u, hu⟩ := (checkApiKey_eq_true_iff key cand).mp hck
      rw [hkey, List.append_assoc] at hu
      have hlen := congrArg List.length hu
      simp only [List.length_append] at hlen
      have : t = [] := List.length_eq_zero.mp (by omega)
      exact absurd this htne
  · intro hne
    cases hck : checkApiKey key cand with
    | false => rfl
    | true => exact absurd ((checkApiKey_eq_true_iff key cand).mp hck) hne

theorem auth_key_prefix_boundary_witness :
    checkApiKey [1, 2] [1] = false ∧ checkApiKey [1, 2] [1, 2, 3] = true :=
  ⟨(auth_key_prefix_boundary [1, 2] [1]).2.2.2.1 ⟨[2], by decide⟩,
   (auth_key_prefix_boundary [1, 2] [1, 2, 3]).2.2.1 [3]⟩

/-- C3: a fetched event is encoded and handed to `try_broadcast` iff it is
not an LED event, not an escape/pause control key, the listener is not
paused, and at least one subscriber exists; in every other case no frame
is constructed and the bus is untouched (main.rs lines 186-230). -/
theorem forward_iff (esc pc : Nat) (s : ListenerState) (buf : List Nat)
    (bus : BusState) (e : InputEventWrapper) (hv : ValidEvent e) :
    ((processEvent esc pc s buf bus e).frame.isSome = true ↔
      ForwardCond esc pc s bus e) ∧
    (¬ ForwardCond esc pc s bus e →
      (processEvent esc pc s buf bus e).frame = none ∧
      (processEvent esc pc s buf bus e).bus = bus) := by
  constructor
  · constructor
    · intro hs
      by_contra hnfc
      obtain ⟨hf, _, _⟩ := processEvent_not_forward esc pc s buf bus e hnfc
      rw [hf] at hs
      simp at hs
    · intro hfc
      rw [processEvent_frame_eq esc pc s buf bus e hfc hv]
      rfl
  · intro hnfc
    obtain ⟨hf, hb, _⟩ := processEvent_not_forward esc pc s buf bus e hnfc
    exact ⟨hf, hb⟩

theorem forward_iff_witness :
    ((processEvent 5 6 ⟨false, true, false, false⟩ (List.replicate 64 0) ⟨[[]], 100⟩
        ⟨0, 0, 1, 30, 1⟩).frame.isSome = true ↔
      ForwardCond 5 6 ⟨false, true, false, false⟩ ⟨[[]], 100⟩ ⟨0, 0, 1, 30, 1⟩) ∧
    (¬ ForwardCond 5 6 ⟨false, true, false, false⟩ ⟨[[]], 100⟩ ⟨0, 0, 1, 30, 1⟩ →
      (processEvent 5 6 ⟨false, true, false, false⟩ (List.replicate 64 0) ⟨[[]], 100⟩
        ⟨0, 0, 1, 30, 1⟩).frame = none ∧
      (processEvent 5 6 ⟨false, true, false, false⟩ (List.replicate 64 0) ⟨[[]], 100⟩
        ⟨0, 0, 1, 30, 1⟩).bus = ⟨[[]], 100⟩) :=
  forward_iff 5 6 ⟨false, true, false, false⟩ (List.replicate 64 0) ⟨[[]], 100⟩
    ⟨0, 0, 1, 30, 1⟩ (by decide)

/-- C4: escape-key and pause-key events (EV_KEY with the configured code)
are always absorbed — no frame is constructed, the bus is untouched —
regardless of grab/pause state; a release (`value == 0`) toggles the
corresponding target, while presses and repeats (`value != 0`) leave the
whole state unchanged (main.rs lines 194-207). -/
theorem control_keys_absorbed (esc pc : Nat) (s : ListenerState) (buf : List Nat)
    (bus : BusState) (e : InputEventWrapper) (hty : e.event_type = EV_KEY) :
    (e.code = esc →
      (processEvent esc pc s buf bus e).frame = none ∧
      (processEvent esc pc s buf bus e).bus = bus ∧
      (e.value = 0 → (processEvent esc pc s buf bus e).state =
        { s with grab_target := !s.grab_target }) ∧
      (e.value ≠ 0 → (processEvent esc pc s buf bus e).state = s)) ∧
    (e.code = pc → e.code ≠ esc →
      (processEvent esc pc s buf bus e).frame = none ∧
      (processEvent esc pc s buf bus e).bus = bus ∧
      (e.value = 0 → (processEvent esc pc s buf bus e).state =
        { s with pause_target := !s.pause_target }) ∧
      (e.value ≠ 0 → (processEvent esc pc s buf bus e).state = s)) := by
  constructor
  · intro hc
    have hled : ¬(e.event_type = EV_LED) := by rw [hty]; decide
    unfold processEvent
    rw [if_neg hled, if_pos ⟨hty, hc⟩]
    refine ⟨rfl, rfl, ?_, ?_⟩
    · intro hv0
      simp [hv0]
    · intro hv0
      have : (e.value == 0) = false := by simpa using hv0
      simp [this]
  · intro hc hne
    have hled : ¬(e.event_type = EV_LED) := by rw [hty]; decide
    unfold processEvent
    rw [if_neg hled, if_neg (fun hk => absurd hk.2 hne), if_pos ⟨hty, hc⟩]
    refine ⟨rfl, rfl, ?_, ?_⟩
    · intro hv0
      have : (e.value == 0) = true := by simpa using hv0
      simp [this]
    · intro hv0
      have : (e.value == 0) = false := by simpa using hv0
      simp [this]

theorem control_keys_absorbed_witness :
    (processEvent 5 6 ⟨false, true, false, false⟩ [] ⟨[], 0⟩ ⟨0, 0, 1, 5, 0⟩).frame
        = none ∧
    (processEvent 5 6 ⟨false, true, false, false⟩ [] ⟨[], 0⟩ ⟨0, 0, 1, 5, 0⟩).bus
        = ⟨[], 0⟩ ∧
    (processEvent 5 6 ⟨false, true, false, false⟩ [] ⟨[], 0⟩ ⟨0, 0, 1, 5, 0⟩).state =
        ⟨false, false, false, false⟩ :=
  ⟨((control_keys_absorbed 5 6 ⟨false, true, false, false⟩ [] ⟨[], 0⟩
      ⟨0, 0, 1, 5, 0⟩ rfl).1 rfl).1,
   ((control_keys_absorbed 5 6 ⟨false, true, false, false⟩ [] ⟨[], 0⟩
      ⟨0, 0, 1, 5, 0⟩ rfl).1 rfl).2.1,
   ((control_keys_absorbed 5 6 ⟨false, true, false, false⟩ [] ⟨[], 0⟩
      ⟨0, 0, 1, 5, 0⟩ rfl).1 rfl).2.2.1 rfl⟩

/-- C5: at the start of step 3 of every listener iteration (the
`fetch_events` call), the actual and target states agree:
`grabbed == grab_target` and `pause == pause_target`; moreover when the
OS-level grab/ungrab call fails, the target is snapped back to the current
actual value, so the failed attempt is not retried (main.rs lines
118-181). -/
theorem targets_synced_at_fetch (os : OsResult) (s : ListenerState) :
    (preFetchState os s).grabbed = (preFetchState os s).grab_target ∧
    (preFetchState os s).pause = (preFetchState os s).pause_target ∧
    (s.grabbed ≠ s.grab_target → os = OsResult.fail →
      (syncGrab os s).grab_target = s.grabbed ∧ (syncGrab os s).grabbed = s.grabbed) := by
  obtain ⟨g, gt, p, pt⟩ := s
  cases os <;> cases g <;> cases gt <;> cases p <;> cases pt <;>
    simp [preFetchState, syncGrab, syncPause]

theorem targets_synced_at_fetch_witness :
    (preFetchState OsResult.fail ⟨false, true, false, false⟩).grabbed =
      (preFetchState OsResult.fail ⟨false, true, false, false⟩).grab_target ∧
    (syncGrab OsResult.fail ⟨false, true, false, false⟩).grab_target = false ∧
    (syncGrab OsResult.fail ⟨false, true, false, false⟩).grabbed = false :=
  ⟨(targets_synced_at_fetch OsResult.fail ⟨false, true, false, false⟩).1,
   (targets_synced_at_fetch OsResult.fail ⟨false, true, false, false⟩).2.2
     (by decide) rfl⟩

/-- C6: when some subscriber's queue is at capacity, `try_broadcast` fails
with `Full` and no queue receives the frame (all-or-nothing drop); the
listener logs "Bus is full.", does not retry, and continues with its
state and the bus unchanged (main.rs lines 224-227; bus semantics
modelled from spec §4.2). -/
theorem bus_full_global_drop (esc pc : Nat) (s : ListenerState) (buf : List Nat)
    (bus : BusState) (e : InputEventWrapper) (hv : ValidEvent e)
    (hfc : ForwardCond esc pc s bus e)
    (hfull : ∃ q ∈ bus.queues, bus.capacity ≤ q.length) :
    (∀ f, tryBroadcast bus f = Except.error BusError.full) ∧
    (processEvent esc pc s buf bus e).bus = bus ∧
    (processEvent esc pc s buf bus e).sent = false ∧
    (processEvent esc pc s buf bus e).busFullLogged = true ∧
    (processEvent esc pc s buf bus e).state = s := by
  have htb : ∀ f, tryBroadcast bus f = Except.error BusError.full :=
    fun f => tryBroadcast_full bus f hfull
  have hred : processEvent esc pc s buf bus e =
      ⟨s, cobsEncode (postcardEncode e) ++ [0] ++
          buf.drop (cobsEncode (postcardEncode e) ++ [0]).length, bus,
        some (cobsEncode (postcardEncode e) ++ [0] ++
            buf.drop (cobsEncode (postcardEncode e) ++ [0]).length,
          (cobsEncode (postcardEncode e) ++ [0]).length), false, true⟩ := by
    rw [processEvent_forward esc pc s buf bus e hfc]
    simp only [toSliceCobs_eq e hv, htb]
  rw [hred]
  exact ⟨htb, rfl, rfl, rfl, rfl⟩

theorem bus_full_global_drop_witness :
    (∀ f, tryBroadcast ⟨[[([], 0)]], 1⟩ f = Except.error BusError.full) ∧
    (processEvent 5 6 ⟨false, true, false, false⟩ (List.replicate 64 0)
      ⟨[[([], 0)]], 1⟩ ⟨0, 0, 1, 30, 1⟩).bus = ⟨[[([], 0)]], 1⟩ ∧
    (processEvent 5 6 ⟨false, true, false, false⟩ (List.replicate 64 0)
      ⟨[[([], 0)]], 1⟩ ⟨0, 0, 1, 30, 1⟩).sent = false ∧
    (processEvent 5 6 ⟨false, true, false, false⟩ (List.replicate 64 0)
      ⟨[[([], 0)]], 1⟩ ⟨0, 0, 1, 30, 1⟩).busFullLogged = true ∧
    (processEvent 5 6 ⟨false, true, false, false⟩ (List.replicate 64 0)
      ⟨[[([], 0)]], 1⟩ ⟨0, 0, 1, 30, 1⟩).state = ⟨false, true, false, false⟩ :=
  bus_full_global_drop 5 6 ⟨false, true, false, false⟩ (List.replicate 64 0)
    ⟨[[([], 0)]], 1⟩ ⟨0, 0, 1, 30, 1⟩ (by decide) (by decide)
    ⟨[([], 0)], by decide, by decide⟩

/-- C7: for any sequence of publishes that all succeed, a subscriber whose
queue was empty before the first publish ends with exactly those frames in
its queue, and receiving front-to-back (FIFO `recv`) yields them in
publish order — no loss, duplication, or reordering (bus semantics
modelled from spec §4.2/§5). -/
theorem fifo_delivery (fs : List Frame) (others : List (List Frame)) (cap : Nat)
    (b' : BusState)
    (h : publishAll ⟨[] :: others, cap⟩ fs = .ok b') :
    (∃ qs, b'.queues = fs :: qs) ∧ drainQueue fs = fs := by
  obtain ⟨hq, _⟩ := publishAll_ok fs ⟨[] :: others, cap⟩ b' h
  refine ⟨⟨others.map (fun q => q ++ fs), ?_⟩, drainQueue_eq fs⟩
  rw [hq]
  simp

theorem fifo_delivery_witness :
    (∃ qs, (⟨[[([1], 1), ([2], 1)]], 2⟩ : BusState).queues =
      [([1], 1), ([2], 1)] :: qs) ∧
    drainQueue [([1], 1), ([2], 1)] = [([1], 1), ([2], 1)] :=
  fifo_delivery [([1], 1), ([2], 1)] [] 2 ⟨[[([1], 1), ([2], 1)]], 2⟩ rfl

/-- C8: every frame the listener hands to the bus is well-formed: its
length is at most 64, the full buffer is exactly 64 bytes, the byte range
a handler writes to the socket is exactly the first `length` bytes, and
the byte at index `length - 1` is the `0x00` sentinel (main.rs lines
209-229 and 293-300). -/
theorem published_frame_wellformed (esc pc : Nat) (s : ListenerState) (buf : List Nat)
    (bus : BusState) (e : InputEventWrapper) (f : Frame)
    (hv : ValidEvent e) (hbuf : buf.length = 64)
    (hf : (processEvent esc pc s buf bus e).frame = some f) :
    f.2 ≤ 64 ∧ f.1.length = 64 ∧ (writtenBytes f).length = f.2 ∧
      (writtenBytes f).getLast? = some 0 := by
  by_cases hfc : ForwardCond esc pc s bus e
  · rw [processEvent_frame_eq esc pc s buf bus e hfc hv] at hf
    have hp := postcardEncode_length e hv
    have hc : (cobsEncode (postcardEncode e)).length ≤
        2 * (postcardEncode e).length + 1 := by
      have := cobsEncodeGo_length (postcardEncode e) []
      simpa [cobsEncode] using this
    have hlen : (cobsEncode (postcardEncode e) ++ [0]).length ≤ 64 := by
      simp only [List.length_append, List.length_cons, List.length_nil]
      omega
    cases hf
    refine ⟨hlen, ?_, ?_, ?_⟩
    · simp only [List.length_append, List.length_cons, List.length_nil,
        List.length_drop, hbuf]
      omega
    · have := List.take_left (cobsEncode (postcardEncode e) ++ [0])
        (buf.drop (cobsEncode (postcardEncode e) ++ [0]).length)
      simp only [writtenBytes, this]
    · have := List.take_left (cobsEncode (postcardEncode e) ++ [0])
        (buf.drop (cobsEncode (postcardEncode e) ++ [0]).length)
      simp only [writtenBytes, this]
      exact List.getLast?_concat _
  · obtain ⟨hnone, _, _⟩ := processEvent_not_forward esc pc s buf bus e hfc
    rw [hnone] at hf
    cases hf

theorem published_frame_wellformed_witness :
    ((1 :: 1 :: 4 :: 1 :: 30 :: 2 :: 0 :: List.replicate 57 0, 7) : Frame).2 ≤ 64 ∧
    ((1 :: 1 :: 4 :: 1 :: 30 :: 2 :: 0 :: List.replicate 57 0, 7) : Frame).1.length
      = 64 ∧
    (writtenBytes (1 :: 1 :: 4 :: 1 :: 30 :: 2 :: 0 :: List.replicate 57 0, 7)).length
      = ((1 :: 1 :: 4 :: 1 :: 30 :: 2 :: 0 :: List.replicate 57 0, 7) : Frame).2 ∧
    (writtenBytes (1 :: 1 :: 4 :: 1 :: 30 :: 2 :: 0 :: List.replicate 57 0, 7)).getLast?
      = some 0 :=
  published_frame_wellformed 5 6 ⟨false, true, false, false⟩ (List.replicate 64 0)
    ⟨[[]], 100⟩ ⟨0, 0, 1, 30, 1⟩
    (1 :: 1 :: 4 :: 1 :: 30 :: 2 :: 0 :: List.replicate 57 0, 7)
    (by decide) (by decide) (by decide)

theorem frame_roundtrip_witness :
    (toSliceCobs ⟨1700000000, 123456789, 1, 30, 1⟩).bind decodeFrame =
      some ⟨1700000000, 123456789, 1, 30, 1⟩ :=
  frame_roundtrip ⟨1700000000, 123456789, 1, 30, 1⟩ (by decide)

/-- C10: a partial socket write is treated as success: the streaming loop
terminates only when `stream.write` returns an error, so after
`Ok(n)` with `n` less than the frame length only the first `n` bytes of
the frame reach the wire, the rest of that frame is never sent, and
streaming continues with the next frame (main.rs lines 293-307). -/
theorem partial_write_silently_truncates (f : Frame) (n : Nat)
    (rest : List StreamStep) (hn : n < f.2) (hlen : f.2 ≤ f.1.length) :
    streamLoop (StreamStep.recvOk f (WriteResult.ok n) :: rest) =
      (writtenBytes f).take n :: streamLoop rest ∧
    ((writtenBytes f).take n).length = n ∧
    streamLoop (StreamStep.recvOk f WriteResult.err :: rest) = [] := by
  refine ⟨rfl, ?_, rfl⟩
  simp only [writtenBytes, List.length_take]
  omega

theorem partial_write_silently_truncates_witness :
    streamLoop (StreamStep.recvOk ([7, 8, 0], 3) (WriteResult.ok 1) ::
        [StreamStep.recvErr]) =
      (writtenBytes ([7, 8, 0], 3)).take 1 :: streamLoop [StreamStep.recvErr] ∧
    ((writtenBytes ([7, 8, 0], 3)).take 1).length = 1 ∧
    streamLoop (StreamStep.recvOk ([7, 8, 0], 3) WriteResult.err ::
        [StreamStep.recvErr]) = [] :=
  partial_write_silently_truncates ([7, 8, 0], 3) 1 [StreamStep.recvErr]
    (by decide) (by decide)

end RemoteInput
